import Mathlib

/-!
Verification of `.github/scripts/terraform_lint.py`.

The script filters its command-line arguments down to existing `.tf` files
under two fixed Terraform roots, runs `terraform fmt -check -diff` on each,
then runs `tflint --init` and `tflint --minimum-failure-severity=error` in
every (deduplicated, sorted) parent directory, and exits 0 iff everything
succeeded (1 otherwise).

The embedding models a POSIX pure path (`pathlib.PurePosixPath`) in parsed
form: an absoluteness flag plus the list of components, where parsing a
string splits on the slash and drops empty and single-dot components.  The
filesystem is an oracle `fs : PyPath → Bool` (the result of `Path.exists`),
and the behavior of the external tools is an oracle
`exec : Invocation → ExecOutcome` giving, for each invoked command with its
working directory, either the return code of the finished process or a
failure to start the process at all.
-/

/-- A parsed POSIX path: absoluteness flag and the component list, each
component a list of characters (slash-free when produced by parsing). -/
structure PyPath where
  absolute : Bool
  parts : List (List Char)
deriving DecidableEq

/-- Splitting a character list on the slash character, keeping empty chunks
(the parser filters them afterwards, as `pathlib` drops them). -/
def splitSlash : List Char → List (List Char)
  | [] => [[]]
  | c :: rest =>
    if c = '/' then [] :: splitSlash rest
    else
      match splitSlash rest with
      | [] => [[c]]
      | g :: gs => (c :: g) :: gs

/-- Parsing a path string the way `pathlib.PurePosixPath` does: the path is
absolute iff the string starts with a slash, and the components are the
slash-separated chunks with empty and `.` chunks dropped. -/
def PyPath.parse (s : String) : PyPath :=
  { absolute := match s.data with
      | '/' :: _ => true
      | _ => false
    parts := (splitSlash s.data).filter (fun c => !c.isEmpty && c != ['.']) }

/-- Joining the components with slashes (`'/'.join` over the parts). -/
def sepJoin : List (List Char) → List Char
  | [] => []
  | [c] => c
  | c :: d :: rest => c ++ '/' :: sepJoin (d :: rest)

/-- The character data of `Path.as_posix()` (also of `str()` on a POSIX
path): a leading slash for absolute paths, `.` for the empty relative
path, otherwise the slash-joined components. -/
def PyPath.asPosixData (p : PyPath) : List Char :=
  if p.absolute then '/' :: sepJoin p.parts
  else if p.parts.isEmpty then ['.']
  else sepJoin p.parts

/-- The string form of a path (`str(path)` on a POSIX system). -/
def PyPath.str (p : PyPath) : String := ⟨p.asPosixData⟩

/-- The character data of `Path.name`: the last component, empty when there
is none. -/
def PyPath.name (p : PyPath) : List Char := p.parts.getLastD []

/-- The character data of `Path.suffix`: `name[i:]` where `i` is the index
of the last dot of the name, provided that dot is neither the first nor the
last character; otherwise empty. -/
def PyPath.suffixData (p : PyPath) : List Char :=
  let r := p.name.reverse
  match r.findIdx? (fun c => c == '.') with
  | none => []
  | some j => if 0 < j ∧ j + 1 < r.length then (r.take (j + 1)).reverse else []

/-- `a / b` on paths: `b` itself when `b` is absolute, otherwise `a` with
the components of `b` appended. -/
def PyPath.join (a b : PyPath) : PyPath :=
  if b.absolute then b else ⟨a.absolute, a.parts ++ b.parts⟩

/-- `Path.parent`: drop the last component (the root and the empty relative
path are their own parents). -/
def PyPath.parent (p : PyPath) : PyPath := ⟨p.absolute, p.parts.dropLast⟩

/-- `is_under_terraform_roots` from the script: the path exists, its suffix
is exactly `.tf`, and its POSIX string starts with one of the two
configured Terraform-root prefixes. -/
def is_under_terraform_roots (fs : PyPath → Bool) (path : PyPath) : Bool :=
  if !fs path || path.suffixData != ".tf".data then false
  else
    "initial-setup/infra/".data.isPrefixOf path.asPosixData
      || "infra-ai-hub/".data.isPrefixOf path.asPosixData

/-- Lexicographic strict comparison of character lists by code point, the
comparison Python uses on strings. -/
def charListLT : List Char → List Char → Bool
  | _, [] => false
  | [], _ :: _ => true
  | a :: as, b :: bs =>
    if a < b then true
    else if b < a then false
    else charListLT as bs

/-- Lexicographic strict comparison of component lists, the comparison
Python uses on tuples of strings. -/
def partsLT : List (List Char) → List (List Char) → Bool
  | _, [] => false
  | [], _ :: _ => true
  | a :: as, b :: bs =>
    if charListLT a b then true
    else if charListLT b a then false
    else partsLT as bs

/-- The key `pathlib` compares paths by: the component tuple, with the root
`/` as an extra leading component for absolute paths. -/
def cmpKey (p : PyPath) : List (List Char) :=
  if p.absolute then ['/'] :: p.parts else p.parts

/-- The non-strict path order used to model Python `sorted` on paths. -/
def pathLE (a b : PyPath) : Bool := !partsLT (cmpKey b) (cmpKey a)

/-- The path order as a relation, for `List.insertionSort`. -/
def PathLe (a b : PyPath) : Prop := pathLE a b = true

instance : DecidableRel PathLe := fun a b =>
  inferInstanceAs (Decidable (pathLE a b = true))

/-- `get_tflint_workdirs` from the script: the parent directories of the
root-joined changed files, deduplicated (the Python set) and sorted. -/
def get_tflint_workdirs (root : PyPath) (changed_files : List PyPath) : List PyPath :=
  List.insertionSort PathLe ((changed_files.map (fun fp => (root.join fp).parent)).dedup)

/-- An external-process invocation: the command vector and the working
directory passed to `subprocess.run`. -/
structure Invocation where
  command : List String
  cwd : PyPath
deriving DecidableEq

/-- The outcome of trying to run one external process: the process ran and
returned a code, or it could not be started at all. -/
inductive ExecOutcome where
  | ran (returncode : Int)
  | startFailure
deriving DecidableEq

/-- An invocation succeeds when the process ran and returned 0; a nonzero
return makes `run_command` raise `RuntimeError`, and a start failure
raises `OSError` (uncaught, so the interpreter exits 1 either way). -/
def execOk (exec : Invocation → ExecOutcome) (inv : Invocation) : Bool :=
  match exec inv with
  | .ran c => c == 0
  | .startFailure => false

/-- Running a list of invocations in order, stopping at the first failure:
returns the invocations attempted and whether all of them succeeded. -/
def runSeq (exec : Invocation → ExecOutcome) : List Invocation → List Invocation × Bool
  | [] => ([], true)
  | inv :: rest =>
    if execOk exec inv then
      let r := runSeq exec rest
      (inv :: r.1, r.2)
    else ([inv], false)

/-- The `terraform fmt` invocation the script builds for one changed file:
check mode, diff output, the root-joined file path, run from the
repository root (the `run_command` default working directory). -/
def fmtInvocation (root : PyPath) (terraform_file : PyPath) : Invocation :=
  ⟨["terraform", "fmt", "-check", "-diff", (root.join terraform_file).str], root⟩

/-- The `tflint` invocations for the work directories, in order: for each
directory an `--init` immediately followed by the severity-limited check,
both run in that directory. -/
def tflintInvocations : List PyPath → List Invocation
  | [] => []
  | d :: ds =>
    ⟨["tflint", "--init"], d⟩
      :: ⟨["tflint", "--minimum-failure-severity=error"], d⟩
      :: tflintInvocations ds

/-- The files `main` keeps: the parsed arguments (after the program name)
that pass `is_under_terraform_roots`. -/
def qualifyingFiles (fs : PyPath → Bool) (args : List String) : List PyPath :=
  (args.map PyPath.parse).filter (fun p => is_under_terraform_roots fs p)

/-- The full sequence of invocations `main` performs when nothing fails:
one format check per qualifying file in input order, then the `tflint`
pairs over the sorted work directories. -/
def mainPlan (root : PyPath) (fs : PyPath → Bool) (args : List String) : List Invocation :=
  (qualifyingFiles fs args).map (fmtInvocation root)
    ++ tflintInvocations (get_tflint_workdirs root (qualifyingFiles fs args))

/-- `main` from the script, returning the process exit code together with
the trace of invocations attempted: no qualifying files is the 0 no-op
path; otherwise the format loop runs, and only if it fully succeeds the
`tflint` loop runs; any failure makes the exit code 1. -/
def pyMain (root : PyPath) (fs : PyPath → Bool) (exec : Invocation → ExecOutcome)
    (args : List String) : Nat × List Invocation :=
  let changed_files := qualifyingFiles fs args
  if changed_files.isEmpty then (0, [])
  else
    let fmtRun := runSeq exec (changed_files.map (fmtInvocation root))
    if fmtRun.2 then
      let lintRun := runSeq exec (tflintInvocations (get_tflint_workdirs root changed_files))
      (if lintRun.2 then 0 else 1, fmtRun.1 ++ lintRun.1)
    else (1, fmtRun.1)

/-- The root-relative form of a path, as the specification describes it:
when the repository root is a path-component prefix, strip it; otherwise
leave the path unchanged. -/
def relToRoot (root p : PyPath) : PyPath :=
  if p.absolute = root.absolute ∧ root.parts.isPrefixOf p.parts then
    ⟨false, p.parts.drop root.parts.length⟩
  else p

/-- Modelled from the spec: the qualification predicate as the spec words
it, with the prefix test applied to the path normalized *relative to the
repository root* (the source applies it to the supplied path itself). -/
def qualifySpec (root : PyPath) (fs : PyPath → Bool) (p : PyPath) : Bool :=
  fs p && p.suffixData == ".tf".data &&
    ("initial-setup/infra/".data.isPrefixOf (relToRoot root p).asPosixData
      || "infra-ai-hub/".data.isPrefixOf (relToRoot root p).asPosixData)

/-- Well-formedness of a path for order reasoning: no component contains a
slash (true of every path `pathlib` can ever produce from a string). -/
def WfPath (p : PyPath) : Prop := ∀ c ∈ p.parts, '/' ∉ c

instance (p : PyPath) : Decidable (WfPath p) := by
  unfold WfPath
  infer_instance

lemma charListLT_irrefl : ∀ a : List Char, charListLT a a = false
  | [] => rfl
  | c :: cs => by simp [charListLT, lt_irrefl c, charListLT_irrefl cs]

lemma charListLT_conn : ∀ a b : List Char,
    charListLT a b = false → charListLT b a = false → a = b
  | [], [], _, _ => rfl
  | [], _ :: _, h1, _ => by simp [charListLT] at h1
  | _ :: _, [], _, h2 => by simp [charListLT] at h2
  | a :: as, b :: bs, h1, h2 => by
    by_cases hab : a < b
    · simp [charListLT, hab] at h1
    · by_cases hba : b < a
      · simp [charListLT, hba] at h2
      · have hEq : a = b := le_antisymm (le_of_not_lt hba) (le_of_not_lt hab)
        subst hEq
        simp only [charListLT, if_neg hab, if_neg hba] at h1 h2
        rw [charListLT_conn as bs h1 h2]

lemma charListLT_trans : ∀ a b c : List Char,
    charListLT a b = true → charListLT b c = true → charListLT a c = true
  | _, [], _, h1, _ => by simp [charListLT] at h1
  | _, _ :: _, [], _, h2 => by simp [charListLT] at h2
  | [], _ :: _, _ :: _, _, _ => rfl
  | a :: as, b :: bs, c :: cs, h1, h2 => by
    by_cases hab : a < b
    · by_cases hbc : b < c
      · simp [charListLT, lt_trans hab hbc]
      · by_cases hcb : c < b
        · simp [charListLT, hbc, hcb] at h2
        · have hEq : b = c := le_antisymm (le_of_not_lt hcb) (le_of_not_lt hbc)
          subst hEq
          simp [charListLT, hab]
    · by_cases hba : b < a
      · simp [charListLT, hab, hba] at h1
      · have hEq : a = b := le_antisymm (le_of_not_lt hba) (le_of_not_lt hab)
        subst hEq
        by_cases hbc : a < c
        · simp [charListLT, hbc]
        · by_cases hcb : c < a
          · simp [charListLT, hbc, hcb] at h2
          · have hEq2 : a = c := le_antisymm (le_of_not_lt hcb) (le_of_not_lt hbc)
            subst hEq2
            simp only [charListLT, if_neg hab, if_neg hba] at h1 h2 ⊢
            exact charListLT_trans as bs cs h1 h2

lemma partsLT_irrefl : ∀ a : List (List Char), partsLT a a = false
  | [] => rfl
  | c :: cs => by simp [partsLT, charListLT_irrefl c, partsLT_irrefl cs]

lemma partsLT_conn : ∀ a b : List (List Char),
    partsLT a b = false → partsLT b a = false → a = b
  | [], [], _, _ => rfl
  | [], _ :: _, h1, _ => by simp [partsLT] at h1
  | _ :: _, [], _, h2 => by simp [partsLT] at h2
  | a :: as, b :: bs, h1, h2 => by
    by_cases hab : charListLT a b = true
    · simp [partsLT, hab] at h1
    · by_cases hba : charListLT b a = true
      · simp [partsLT, hba] at h2
      · have hEq : a = b :=
          charListLT_conn a b (Bool.eq_false_iff.mpr hab) (Bool.eq_false_iff.mpr hba)
        subst hEq
        simp only [partsLT, charListLT_irrefl a, if_neg] at h1 h2
        rw [partsLT_conn as bs h1 h2]

lemma partsLT_trans : ∀ a b c : List (List Char),
    partsLT a b = true → partsLT b c = true → partsLT a c = true
  | _, [], _, h1, _ => by simp [partsLT] at h1
  | _, _ :: _, [], _, h2 => by simp [partsLT] at h2
  | [], _ :: _, _ :: _, _, _ => rfl
  | a :: as, b :: bs, c :: cs, h1, h2 => by
    by_cases hab : charListLT a b = true
    · by_cases hbc : charListLT b c = true
      · simp [partsLT, charListLT_trans a b c hab hbc]
      · by_cases hcb : charListLT c b = true
        · simp [partsLT, hbc, hcb] at h2
        · have hEq : b = c :=
            charListLT_conn b c (Bool.eq_false_iff.mpr hbc) (Bool.eq_false_iff.mpr hcb)
          subst hEq
          simp [partsLT, hab]
    · by_cases hba : charListLT b a = true
      · simp [partsLT, hab, hba] at h1
      · have hEq : a = b :=
          charListLT_conn a b (Bool.eq_false_iff.mpr hab) (Bool.eq_false_iff.mpr hba)
        subst hEq
        by_cases hbc : charListLT a c = true
        · simp [partsLT, hbc]
        · by_cases hcb : charListLT c a = true
          · simp [partsLT, hbc, hcb] at h2
          · have hEq2 : a = c :=
              charListLT_conn a c (Bool.eq_false_iff.mpr hbc) (Bool.eq_false_iff.mpr hcb)
            subst hEq2
            simp only [partsLT, charListLT_irrefl a, if_neg] at h1 h2 ⊢
            exact partsLT_trans as bs cs h1 h2

lemma partsLT_asymm {a b : List (List Char)} (h : partsLT a b = true) : partsLT b a = false := by
  by_contra hba
  have hba' : partsLT b a = true := Bool.eq_false_iff.not_left.mp hba
  have := partsLT_trans a b a h hba'
  rw [partsLT_irrefl a] at this
  exact Bool.false_ne_true this

lemma partsLT_append : ∀ r x y : List (List Char), partsLT (r ++ x) (r ++ y) = partsLT x y
  | [], _, _ => rfl
  | c :: r, x, y => by simp [partsLT, charListLT_irrefl c, partsLT_append r x y]

instance : IsTotal PyPath PathLe where
  total a b := by
    unfold PathLe pathLE
    cases h : partsLT (cmpKey b) (cmpKey a)
    · left; rfl
    · right; rw [partsLT_asymm h]; rfl

instance : IsTrans PyPath PathLe where
  trans a b c hab hbc := by
    unfold PathLe pathLE at hab hbc ⊢
    rw [Bool.not_eq_eq_eq_not, Bool.not_true] at hab hbc ⊢
    by_contra hca
    have hca' : partsLT (cmpKey c) (cmpKey a) = true := Bool.eq_false_iff.not_left.mp hca
    by_cases hakb : partsLT (cmpKey a) (cmpKey b) = true
    · have := partsLT_trans _ _ _ hca' hakb
      rw [hbc] at this
      exact Bool.false_ne_true this
    · have hEq : cmpKey a = cmpKey b :=
        partsLT_conn _ _ (Bool.eq_false_iff.mpr hakb) hab
      rw [hEq] at hca'
      rw [hbc] at hca'
      exact Bool.false_ne_true hca'

lemma pathLe_antisymm_wf {a b : PyPath} (ha : WfPath a) (hb : WfPath b)
    (hab : PathLe a b) (hba : PathLe b a) : a = b := by
  unfold PathLe pathLE at hab hba
  rw [Bool.not_eq_eq_eq_not, Bool.not_true] at hab hba
  have hkey : cmpKey a = cmpKey b := partsLT_conn _ _ hba hab
  cases a with
  | mk aa ap =>
    cases b with
    | mk ba bp =>
      unfold cmpKey at hkey
      cases aa <;> cases ba <;> simp at hkey
      · rw [hkey]
      · exfalso
        have hmem : ['/'] ∈ ap := by rw [hkey]; exact List.mem_cons_self _ _
        exact ha ['/'] hmem (List.mem_singleton.mpr rfl)
      · exfalso
        have hmem : ['/'] ∈ bp := by rw [← hkey]; exact List.mem_cons_self _ _
        exact hb ['/'] hmem (List.mem_singleton.mpr rfl)
      · rw [hkey]

lemma splitSlash_ne_nil : ∀ l : List Char, splitSlash l ≠ []
  | [] => by simp [splitSlash]
  | c :: rest => by
    unfold splitSlash
    by_cases h : c = '/'
    · simp [h]
    · simp only [if_neg h]
      cases hs : splitSlash rest <;> simp

lemma splitSlash_sf : ∀ l : List Char, ∀ c ∈ splitSlash l, '/' ∉ c
  | [], c, hc => by
    simp [splitSlash] at hc
    simp [hc]
  | a :: rest, c, hc => by
    unfold splitSlash at hc
    by_cases h : a = '/'
    · rw [if_pos h] at hc
      rcases List.mem_cons.mp hc with h1 | h1
      · simp [h1]
      · exact splitSlash_sf rest c h1
    · rw [if_neg h] at hc
      cases hs : splitSlash rest with
      | nil => exact absurd hs (splitSlash_ne_nil rest)
      | cons g gs =>
        rw [hs] at hc
        rcases List.mem_cons.mp hc with h1 | h1
        · subst h1
          intro hmem
          rcases List.mem_cons.mp hmem with h2 | h2
          · exact h h2.symm
          · exact splitSlash_sf rest g (hs ▸ List.mem_cons_self g gs) h2
        · exact splitSlash_sf rest c (hs ▸ List.mem_cons_of_mem g h1)

lemma parse_wf (s : String) : WfPath (PyPath.parse s) := by
  intro c hc
  have hc' : c ∈ splitSlash s.data := List.mem_of_mem_filter hc
  exact splitSlash_sf s.data c hc'

lemma parse_parts_ne_nil (s : String) : ∀ c ∈ (PyPath.parse s).parts, c ≠ [] := by
  intro c hc
  have := List.of_mem_filter hc
  simp only [Bool.and_eq_true] at this
  intro he
  rw [he] at this
  simp at this

lemma splitSlash_noslash : ∀ c : List Char, '/' ∉ c → splitSlash c = [c]
  | [], _ => rfl
  | ch :: cs, h => by
    have h1 : ¬ch = '/' := fun e => h (e ▸ List.mem_cons_self ch cs)
    have h2 : '/' ∉ cs := fun m => h (List.mem_cons_of_mem ch m)
    simp [splitSlash, h1, splitSlash_noslash cs h2]

lemma splitSlash_chunk : ∀ c : List Char, '/' ∉ c → ∀ r : List Char,
    splitSlash (c ++ '/' :: r) = c :: splitSlash r
  | [], _, r => by simp [splitSlash]
  | ch :: cs, h, r => by
    have h1 : ¬ch = '/' := fun e => h (e ▸ List.mem_cons_self ch cs)
    have h2 : '/' ∉ cs := fun m => h (List.mem_cons_of_mem ch m)
    simp [splitSlash, h1, splitSlash_chunk cs h2 r]

lemma splitSlash_sepJoin : ∀ l : List (List Char), l ≠ [] → (∀ c ∈ l, '/' ∉ c) →
    splitSlash (sepJoin l) = l
  | [], h, _ => absurd rfl h
  | [c], _, hsf => by
    simp only [sepJoin]
    exact splitSlash_noslash c (hsf c (List.mem_singleton.mpr rfl))
  | c :: d :: rest, _, hsf => by
    simp only [sepJoin]
    rw [splitSlash_chunk c (hsf c (List.mem_cons_self _ _)) (sepJoin (d :: rest))]
    rw [splitSlash_sepJoin (d :: rest) (by simp)
      (fun x hx => hsf x (List.mem_cons_of_mem c hx))]

lemma sepJoin_inj {x y : List (List Char)} (hx : x ≠ []) (hy : y ≠ [])
    (hxs : ∀ c ∈ x, '/' ∉ c) (hys : ∀ c ∈ y, '/' ∉ c)
    (h : sepJoin x = sepJoin y) : x = y := by
  have := splitSlash_sepJoin x hx hxs
  rw [h, splitSlash_sepJoin y hy hys] at this
  exact this.symm

lemma is_under_char (fs : PyPath → Bool) (p : PyPath) :
    is_under_terraform_roots fs p = true ↔
      fs p = true ∧ p.suffixData = ".tf".data ∧
        ("initial-setup/infra/".data.isPrefixOf p.asPosixData = true
          ∨ "infra-ai-hub/".data.isPrefixOf p.asPosixData = true) := by
  unfold is_under_terraform_roots
  by_cases h1 : fs p = true
  · by_cases h2 : p.suffixData = ".tf".data
    · simp [h1, h2]
    · simp [h1, h2]
  · simp [Bool.eq_false_iff.mpr h1, h1]

lemma pref1_slash (l : List Char) :
    "initial-setup/infra/".data.isPrefixOf ('/' :: l) = false := rfl

lemma pref2_slash (l : List Char) :
    "infra-ai-hub/".data.isPrefixOf ('/' :: l) = false := rfl

lemma qual_not_absolute {fs : PyPath → Bool} {p : PyPath}
    (h : is_under_terraform_roots fs p = true) : p.absolute = false := by
  cases ha : p.absolute
  · rfl
  · exfalso
    have hpos : p.asPosixData = '/' :: sepJoin p.parts := by
      unfold PyPath.asPosixData
      rw [ha]
      simp
    rcases ((is_under_char fs p).mp h).2.2 with hp | hp
    · rw [hpos, pref1_slash] at hp
      exact Bool.false_ne_true hp
    · rw [hpos, pref2_slash] at hp
      exact Bool.false_ne_true hp

lemma qual_parts_ne_nil {fs : PyPath → Bool} {p : PyPath}
    (h : is_under_terraform_roots fs p = true) : p.parts ≠ [] := by
  intro he
  have hs : p.suffixData = ".tf".data := ((is_under_char fs p).mp h).2.1
  have : p.suffixData = [] := by
    simp [PyPath.suffixData, PyPath.name, he, List.findIdx?]
  rw [this] at hs
  exact absurd hs.symm (by decide)

lemma runSeq_ok (exec : Invocation → ExecOutcome) :
    ∀ l : List Invocation, (runSeq exec l).2 = l.all (execOk exec)
  | [] => rfl
  | inv :: rest => by
    cases h : execOk exec inv
    · simp [runSeq, h]
    · simp [runSeq, h, runSeq_ok exec rest]

lemma runSeq_trace_all (exec : Invocation → ExecOutcome) :
    ∀ l : List Invocation, l.all (execOk exec) = true → (runSeq exec l).1 = l
  | [], _ => rfl
  | inv :: rest, h => by
    rw [List.all_cons, Bool.and_eq_true] at h
    simp [runSeq, h.1, runSeq_trace_all exec rest h.2]

lemma runSeq_trace_prefixOf (exec : Invocation → ExecOutcome) :
    ∀ l : List Invocation, (runSeq exec l).1 <+: l
  | [] => List.nil_prefix
  | inv :: rest => by
    cases h : execOk exec inv
    · simp only [runSeq, h]
      exact ⟨rest, rfl⟩
    · obtain ⟨t, ht⟩ := runSeq_trace_prefixOf exec rest
      exact ⟨t, by simp [runSeq, h, List.cons_append, ht]⟩

lemma runSeq_append (exec : Invocation → ExecOutcome) :
    ∀ a b : List Invocation, runSeq exec (a ++ b) =
      if (runSeq exec a).2 then ((runSeq exec a).1 ++ (runSeq exec b).1, (runSeq exec b).2)
      else runSeq exec a
  | [], b => by simp [runSeq]
  | inv :: a, b => by
    cases h : execOk exec inv
    · simp [runSeq, h]
    · rw [List.cons_append]
      simp only [runSeq, h, if_true]
      rw [runSeq_append exec a b]
      cases h2 : (runSeq exec a).2 <;> simp [h2]

lemma runSeq_first_fail (exec : Invocation → ExecOutcome) :
    ∀ (l : List Invocation) (k : Nat) (hk : k < l.length),
      (∀ j (hj : j < l.length), j < k → execOk exec (l.get ⟨j, hj⟩) = true) →
      execOk exec (l.get ⟨k, hk⟩) = false →
      runSeq exec l = (l.take (k + 1), false)
  | [], k, hk, _, _ => absurd hk (Nat.not_lt_zero k)
  | inv :: rest, 0, _, _, hfail => by
    have : execOk exec inv = false := hfail
    simp [runSeq, this]
  | inv :: rest, k + 1, hk, hbefore, hfail => by
    have h0 : execOk exec inv = true :=
      hbefore 0 (Nat.zero_lt_succ _) (Nat.zero_lt_succ _)
    have hk' : k < rest.length := Nat.lt_of_succ_lt_succ hk
    have hrec : runSeq exec rest = (rest.take (k + 1), false) :=
      runSeq_first_fail exec rest k hk'
        (fun j hj hjk => hbefore (j + 1) (Nat.succ_lt_succ hj) (Nat.succ_lt_succ hjk))
        hfail
    simp [runSeq, h0, hrec, List.take_succ_cons]

lemma pyMain_runSeq (root : PyPath) (fs : PyPath → Bool) (exec : Invocation → ExecOutcome)
    (args : List String) (h : qualifyingFiles fs args ≠ []) :
    pyMain root fs exec args =
      (if (runSeq exec (mainPlan root fs args)).2 then 0 else 1,
       (runSeq exec (mainPlan root fs args)).1) := by
  have he : (qualifyingFiles fs args).isEmpty = false := by
    cases hq : qualifyingFiles fs args
    · exact absurd hq h
    · rfl
  simp only [pyMain, mainPlan, he, Bool.false_eq_true, if_false]
  simp only [runSeq_append exec]
  cases h2 : (runSeq exec ((qualifyingFiles fs args).map (fmtInvocation root))).2 <;> simp [h2]

lemma join_relative (root p : PyPath) (hp : p.absolute = false) :
    root.join p = ⟨root.absolute, root.parts ++ p.parts⟩ := by
  unfold PyPath.join
  rw [hp]
  simp

lemma parent_parts (root p : PyPath) (hp : p.absolute = false) (hne : p.parts ≠ []) :
    (root.join p).parent = ⟨root.absolute, root.parts ++ p.parts.dropLast⟩ := by
  rw [join_relative root p hp]
  unfold PyPath.parent
  simp only
  rw [List.dropLast_append_of_ne_nil _ hne]

lemma join_posixData_inj {root x p : PyPath} (hroot : WfPath root)
    (hx : WfPath x) (hp : WfPath p) (hxa : x.absolute = false) (hpa : p.absolute = false)
    (hxn : x.parts ≠ []) (hpn : p.parts ≠ [])
    (h : (root.join x).asPosixData = (root.join p).asPosixData) : x = p := by
  rw [join_relative root x hxa, join_relative root p hpa] at h
  unfold PyPath.asPosixData at h
  have hne1 : root.parts ++ x.parts ≠ [] := by
    intro he
    exact hxn (List.append_eq_nil.mp he).2
  have hne2 : root.parts ++ p.parts ≠ [] := by
    intro he
    exact hpn (List.append_eq_nil.mp he).2
  have hsf1 : ∀ c ∈ root.parts ++ x.parts, '/' ∉ c := by
    intro c hc
    rcases List.mem_append.mp hc with h1 | h1
    · exact hroot c h1
    · exact hx c h1
  have hsf2 : ∀ c ∈ root.parts ++ p.parts, '/' ∉ c := by
    intro c hc
    rcases List.mem_append.mp hc with h1 | h1
    · exact hroot c h1
    · exact hp c h1
  have hparts : root.parts ++ x.parts = root.parts ++ p.parts := by
    cases ha : root.absolute
    · rw [ha] at h
      simp only [Bool.false_eq_true, if_false, List.isEmpty_eq_true] at h
      rw [if_neg hne1, if_neg hne2] at h
      exact sepJoin_inj hne1 hne2 hsf1 hsf2 h
    · rw [ha] at h
      simp only [if_true] at h
      exact sepJoin_inj hne1 hne2 hsf1 hsf2 (List.cons_injective h)
  have hpp : x.parts = p.parts := List.append_cancel_left hparts
  cases x with
  | mk xa xp =>
    cases p with
    | mk pa pp =>
      simp only at hxa hpa hpp
      rw [hxa, hpa, hpp]

lemma mainPlan_of_nil {root : PyPath} {fs : PyPath → Bool} {args : List String}
    (h : qualifyingFiles fs args = []) : mainPlan root fs args = [] := by
  simp [mainPlan, h, get_tflint_workdirs, tflintInvocations]

/-- C1 counterexample: at the absolute path `/repo/infra-ai-hub/x.tf` (with a
filesystem on which it exists), the three conditions of the claim hold — in
particular the root-relative form `infra-ai-hub/x.tf` starts with a
configured prefix — yet `is_under_terraform_roots` returns false, because
the code applies the prefix test to the supplied path string itself. -/
theorem qualify_root_relative_counterexample :
    qualifySpec (PyPath.parse "/repo") (fun q => q == PyPath.parse "/repo/infra-ai-hub/x.tf")
        (PyPath.parse "/repo/infra-ai-hub/x.tf") = true
      ∧ is_under_terraform_roots (fun q => q == PyPath.parse "/repo/infra-ai-hub/x.tf")
        (PyPath.parse "/repo/infra-ai-hub/x.tf") = false := by
  exact ⟨by decide, by decide⟩

/-- C1 (amended): `qualify(p)` is true iff `p` exists, its suffix is exactly
`.tf`, and the forward-slash form of the path *as supplied* (not
relativized against the repository root) starts with `initial-setup/infra/`
or `infra-ai-hub/`; it is false whenever any one condition fails. -/
theorem qualify_characterization (fs : PyPath → Bool) (p : PyPath) :
    is_under_terraform_roots fs p = true ↔
      fs p = true ∧ p.suffixData = ".tf".data ∧
        ("initial-setup/infra/".data.isPrefixOf p.asPosixData = true
          ∨ "infra-ai-hub/".data.isPrefixOf p.asPosixData = true) :=
  is_under_char fs p

/-- C8: an absolute input path never qualifies, whatever the filesystem
says, because its forward-slash form starts with `/` and therefore cannot
start with either configured relative prefix. -/
theorem qualify_absolute_never (fs : PyPath → Bool) (p : PyPath) (h : p.absolute = true) :
    is_under_terraform_roots fs p = false := by
  cases hq : is_under_terraform_roots fs p
  · rfl
  · have := qual_not_absolute hq
    rw [h] at this
    exact absurd this (by decide)

/-- C8 witness: the absolute path to an existing `.tf` file that sits under
a Terraform root still does not qualify. -/
theorem qualify_absolute_never_witness :
    (PyPath.parse "/repo/infra-ai-hub/x.tf").absolute = true
      ∧ is_under_terraform_roots (fun _ => true) (PyPath.parse "/repo/infra-ai-hub/x.tf")
        = false :=
  ⟨by decide, qualify_absolute_never (fun _ => true) (PyPath.parse "/repo/infra-ai-hub/x.tf")
    (by decide)⟩

/-- C2: the process exit code is 0 exactly when there are no qualifying
files or every planned external invocation succeeds (returns 0), and 1
otherwise — a nonzero return or a failure to start makes the run fail. -/
theorem main_exit_code (root : PyPath) (fs : PyPath → Bool) (exec : Invocation → ExecOutcome)
    (args : List String) :
    (pyMain root fs exec args).1 =
      if qualifyingFiles fs args = [] ∨ (mainPlan root fs args).all (execOk exec) = true
      then 0 else 1 := by
  by_cases hq : qualifyingFiles fs args = []
  · simp [pyMain, hq]
  · rw [pyMain_runSeq root fs exec args hq]
    rw [runSeq_ok]
    by_cases hall : (mainPlan root fs args).all (execOk exec) = true
    · simp [hq, hall]
    · simp [hq, hall]

/-- C4: when no argument qualifies (or there are no arguments), `main`
returns 0 and attempts no external invocation at all. -/
theorem main_no_qualifying (root : PyPath) (fs : PyPath → Bool) (exec : Invocation → ExecOutcome)
    (args : List String)
    (h : ∀ s ∈ args, is_under_terraform_roots fs (PyPath.parse s) = false) :
    pyMain root fs exec args = (0, []) := by
  have hq : qualifyingFiles fs args = [] := by
    unfold qualifyingFiles
    rw [List.filter_eq_nil_iff]
    intro p hp
    obtain ⟨s, hs, rfl⟩ := List.mem_map.mp hp
    rw [h s hs]
    exact Bool.false_ne_true
  simp [pyMain, hq]

/-- C4 witness: a run on two non-qualifying paths exits 0 with an empty
invocation trace. -/
theorem main_no_qualifying_witness :
    (∀ s ∈ ["README.md", "infra-ai-hub/a/x.txt"],
        is_under_terraform_roots (fun _ => true) (PyPath.parse s) = false)
      ∧ pyMain (PyPath.parse "/repo") (fun _ => true) (fun _ => ExecOutcome.ran 0)
          ["README.md", "infra-ai-hub/a/x.txt"] = (0, []) :=
  ⟨by decide, main_no_qualifying (PyPath.parse "/repo") (fun _ => true)
    (fun _ => ExecOutcome.ran 0) ["README.md", "infra-ai-hub/a/x.txt"] (by decide)⟩

/-- C5: the invocations `main` attempts are always an initial segment of the
plan `format checks in input order, then per sorted work directory an init
immediately followed by the severity-limited lint`; the format commands are
exactly `terraform fmt -check -diff <root-joined path>` run from the
repository root; the work-directory list is sorted; and when every
invocation succeeds the whole plan is executed (so no format check ever
starts after a lint invocation). -/
theorem main_invocation_sequence (root : PyPath) (fs : PyPath → Bool)
    (exec : Invocation → ExecOutcome) (args : List String) :
    (pyMain root fs exec args).2 <+: mainPlan root fs args
      ∧ mainPlan root fs args =
          (qualifyingFiles fs args).map
            (fun f => ⟨["terraform", "fmt", "-check", "-diff", (root.join f).str], root⟩)
            ++ tflintInvocations (get_tflint_workdirs root (qualifyingFiles fs args))
      ∧ List.Sorted PathLe (get_tflint_workdirs root (qualifyingFiles fs args))
      ∧ ((mainPlan root fs args).all (execOk exec) = true →
          (pyMain root fs exec args).2 = mainPlan root fs args) := by
  refine ⟨?_, rfl, List.sorted_insertionSort PathLe _, ?_⟩
  · by_cases hq : qualifyingFiles fs args = []
    · simp [pyMain, hq]
    · rw [pyMain_runSeq root fs exec args hq]
      exact runSeq_trace_prefixOf exec _
  · intro hall
    by_cases hq : qualifyingFiles fs args = []
    · rw [mainPlan_of_nil hq]
      simp [pyMain, hq]
    · rw [pyMain_runSeq root fs exec args hq]
      exact runSeq_trace_all exec _ hall

/-- C5 witness: on one qualifying file with all tools succeeding, the trace
is the entire plan. -/
theorem main_invocation_sequence_witness :
    (pyMain (PyPath.parse "/repo") (fun _ => true) (fun _ => ExecOutcome.ran 0)
        ["infra-ai-hub/a/x.tf"]).2
      = mainPlan (PyPath.parse "/repo") (fun _ => true) ["infra-ai-hub/a/x.tf"] :=
  (main_invocation_sequence (PyPath.parse "/repo") (fun _ => true) (fun _ => ExecOutcome.ran 0)
    ["infra-ai-hub/a/x.tf"]).2.2.2 (by decide)

/-- C6: when the first failing invocation is the `k`-th of the plan, `main`
attempts exactly the first `k+1` invocations (nothing after the failure is
started, and the already-completed ones stay in the trace) and exits 1. -/
theorem main_short_circuit (root : PyPath) (fs : PyPath → Bool) (exec : Invocation → ExecOutcome)
    (args : List String) (k : Nat) (hk : k < (mainPlan root fs args).length)
    (hbefore : ∀ j (hj : j < (mainPlan root fs args).length), j < k →
      execOk exec ((mainPlan root fs args).get ⟨j, hj⟩) = true)
    (hfail : execOk exec ((mainPlan root fs args).get ⟨k, hk⟩) = false) :
    (pyMain root fs exec args).1 = 1
      ∧ (pyMain root fs exec args).2 = (mainPlan root fs args).take (k + 1) := by
  have hq : qualifyingFiles fs args ≠ [] := by
    intro he
    rw [mainPlan_of_nil he] at hk
    exact absurd hk (by simp)
  have hrs := runSeq_first_fail exec (mainPlan root fs args) k hk hbefore hfail
  rw [pyMain_runSeq root fs exec args hq, hrs]
  simp

/-- C6 witness: with the very first format check failing, the trace is the
one-element prefix of the plan and the exit code is 1. -/
theorem main_short_circuit_witness :
    (pyMain (PyPath.parse "/repo") (fun _ => true) (fun _ => ExecOutcome.ran 1)
        ["infra-ai-hub/a/x.tf"]).1 = 1
      ∧ (pyMain (PyPath.parse "/repo") (fun _ => true) (fun _ => ExecOutcome.ran 1)
          ["infra-ai-hub/a/x.tf"]).2
        = (mainPlan (PyPath.parse "/repo") (fun _ => true) ["infra-ai-hub/a/x.tf"]).take 1 :=
  main_short_circuit (PyPath.parse "/repo") (fun _ => true) (fun _ => ExecOutcome.ran 1)
    ["infra-ai-hub/a/x.tf"] 0 (by decide)
    (fun j _ hj0 => absurd hj0 (Nat.not_lt_zero j)) (by decide)

/-- C7: the embedding makes `main` a pure function of the repository root,
the filesystem, the external-tool behavior and the argument list — the
program keeps no other state — so two runs against the same filesystem and
tool behavior on the same input produce the same exit code. -/
theorem main_deterministic (root : PyPath) (fs : PyPath → Bool) (exec : Invocation → ExecOutcome)
    (args : List String) (r₁ r₂ : Nat × List Invocation)
    (h₁ : r₁ = pyMain root fs exec args) (h₂ : r₂ = pyMain root fs exec args) :
    r₁.1 = r₂.1 := by rw [h₁, h₂]

/-- C7 witness: two identical concrete runs agree on the exit code. -/
theorem main_deterministic_witness :
    (pyMain (PyPath.parse "/repo") (fun _ => true) (fun _ => ExecOutcome.ran 0)
        ["infra-ai-hub/a/x.tf"]).1
      = (pyMain (PyPath.parse "/repo") (fun _ => true) (fun _ => ExecOutcome.ran 0)
          ["infra-ai-hub/a/x.tf"]).1 :=
  main_deterministic (PyPath.parse "/repo") (fun _ => true) (fun _ => ExecOutcome.ran 0)
    ["infra-ai-hub/a/x.tf"] _ _ rfl rfl

lemma sorted_unique : ∀ l₁ l₂ : List PyPath,
    (∀ a ∈ l₁, ∀ b ∈ l₁, PathLe a b → PathLe b a → a = b) →
    l₁.Perm l₂ → l₁.Sorted PathLe → l₂.Sorted PathLe → l₁ = l₂
  | [], _, _, hp, _, _ => hp.nil_eq
  | a :: t₁, [], _, hp, _, _ => absurd hp.symm.nil_eq (by simp)
  | a :: t₁, b :: t₂, hanti, hp, hs₁, hs₂ => by
    have hbmem : b ∈ a :: t₁ := hp.mem_iff.mpr (List.mem_cons_self b t₂)
    have hamem : a ∈ b :: t₂ := hp.mem_iff.mp (List.mem_cons_self a t₁)
    have hab : a = b := by
      rcases List.mem_cons.mp hbmem with h1 | h1
      · exact h1.symm
      · rcases List.mem_cons.mp hamem with h2 | h2
        · exact h2
        · exact hanti a (List.mem_cons_self a t₁) b (List.mem_cons_of_mem a h1)
            (List.rel_of_sorted_cons hs₁ b h1) (List.rel_of_sorted_cons hs₂ a h2)
    subst hab
    have ht := hp.cons_inv
    rw [sorted_unique t₁ t₂
      (fun x hx y hy => hanti x (List.mem_cons_of_mem a hx) y (List.mem_cons_of_mem a hy))
      ht (List.sorted_cons.mp hs₁).2 (List.sorted_cons.mp hs₂).2]

lemma perm_pair_cases {a b : PyPath} : ∀ {l : List PyPath}, l.Perm [a, b] →
    l = [a, b] ∨ l = [b, a] := by
  intro l h
  cases l with
  | nil => exact absurd h.nil_eq (by simp)
  | cons x t =>
    rcases List.mem_cons.mp (h.mem_iff.mp (List.mem_cons_self x t)) with h1 | h1
    · subst h1
      left
      rw [List.perm_singleton.mp h.cons_inv]
    · rw [List.mem_singleton.mp h1]
      rw [List.mem_singleton.mp h1] at h
      right
      have h2 : (b :: t).Perm (b :: [a]) := h.trans (List.Perm.swap b a [])
      rw [List.perm_singleton.mp h2.cons_inv]

lemma join_parent_wf {root : PyPath} (hroot : WfPath root) {f : PyPath} (hf : WfPath f) :
    WfPath (root.join f).parent := by
  intro c hc
  unfold PyPath.parent at hc
  simp only at hc
  have hc2 : c ∈ (root.join f).parts := List.dropLast_subset _ hc
  unfold PyPath.join at hc2
  by_cases ha : f.absolute = true
  · rw [if_pos ha] at hc2
    exact hf c hc2
  · rw [if_neg ha] at hc2
    simp only at hc2
    rcases List.mem_append.mp hc2 with h1 | h1
    · exact hroot c h1
    · exact hf c h1

lemma workdirs_wf {root : PyPath} (hroot : WfPath root) (files : List PyPath)
    (hfiles : ∀ f ∈ files, WfPath f) :
    ∀ d ∈ get_tflint_workdirs root files, WfPath d := by
  intro d hd
  have hd2 : d ∈ (files.map (fun fp => (root.join fp).parent)).dedup :=
    ((List.perm_insertionSort PathLe _).mem_iff).mp hd
  obtain ⟨f, hf, rfl⟩ := List.mem_map.mp (List.mem_dedup.mp hd2)
  exact join_parent_wf hroot (hfiles f hf)

lemma tflint_cwd_mem : ∀ (ds : List PyPath) (inv : Invocation),
    inv ∈ tflintInvocations ds → inv.cwd ∈ ds
  | [], _, h => absurd h (List.not_mem_nil _)
  | d :: ds, inv, h => by
    rcases List.mem_cons.mp h with h1 | h1
    · rw [h1]
      exact List.mem_cons_self _ _
    · rcases List.mem_cons.mp h1 with h2 | h2
      · rw [h2]
        exact List.mem_cons_self _ _
      · exact List.mem_cons_of_mem d (tflint_cwd_mem ds inv h2)

lemma pathLE_join (root x y : PyPath) (hx : x.absolute = false) (hy : y.absolute = false) :
    pathLE (root.join x) (root.join y) = !partsLT y.parts x.parts := by
  rw [join_relative root x hx, join_relative root y hy]
  unfold pathLE cmpKey
  cases ha : root.absolute
  · simp only [Bool.false_eq_true, if_false]
    rw [partsLT_append]
  · simp only [if_true]
    rw [← List.cons_append, ← List.cons_append, partsLT_append]

lemma workdir_eq_a1 (root : PyPath) :
    (root.join (PyPath.parse "infra-ai-hub/a/x.tf")).parent
      = root.join (PyPath.parse "infra-ai-hub/a") := by
  rw [parent_parts root _ (by decide) (by decide), join_relative root _ (by decide)]
  rw [show (PyPath.parse "infra-ai-hub/a/x.tf").parts.dropLast
    = (PyPath.parse "infra-ai-hub/a").parts from by decide]

lemma workdir_eq_a2 (root : PyPath) :
    (root.join (PyPath.parse "infra-ai-hub/a/y.tf")).parent
      = root.join (PyPath.parse "infra-ai-hub/a") := by
  rw [parent_parts root _ (by decide) (by decide), join_relative root _ (by decide)]
  rw [show (PyPath.parse "infra-ai-hub/a/y.tf").parts.dropLast
    = (PyPath.parse "infra-ai-hub/a").parts from by decide]

lemma workdir_eq_b (root : PyPath) :
    (root.join (PyPath.parse "initial-setup/infra/b/z.tf")).parent
      = root.join (PyPath.parse "initial-setup/infra/b") := by
  rw [parent_parts root _ (by decide) (by decide), join_relative root _ (by decide)]
  rw [show (PyPath.parse "initial-setup/infra/b/z.tf").parts.dropLast
    = (PyPath.parse "initial-setup/infra/b").parts from by decide]

lemma workdir_ab_ne (root : PyPath) :
    root.join (PyPath.parse "infra-ai-hub/a") ≠ root.join (PyPath.parse "initial-setup/infra/b") := by
  rw [join_relative root _ (by decide), join_relative root _ (by decide)]
  intro h
  have h2 := congrArg PyPath.parts h
  simp only at h2
  have := List.append_cancel_left h2
  exact absurd this (by decide)

lemma workdir_ab_le (root : PyPath) :
    PathLe (root.join (PyPath.parse "infra-ai-hub/a"))
      (root.join (PyPath.parse "initial-setup/infra/b")) := by
  unfold PathLe
  rw [pathLE_join root _ _ (by decide) (by decide)]
  decide

lemma workdir_ba_nle (root : PyPath) :
    ¬PathLe (root.join (PyPath.parse "initial-setup/infra/b"))
      (root.join (PyPath.parse "infra-ai-hub/a")) := by
  unfold PathLe
  rw [pathLE_join root _ _ (by decide) (by decide)]
  decide

lemma insertionSort_pair1 {P Q : PyPath} (hle : PathLe P Q) :
    List.insertionSort PathLe [P, Q] = [P, Q] := by
  simp only [List.insertionSort, List.orderedInsert]
  rw [if_pos hle]

lemma insertionSort_pair2 {P Q : PyPath} (hnle : ¬PathLe Q P) :
    List.insertionSort PathLe [Q, P] = [P, Q] := by
  simp only [List.insertionSort, List.orderedInsert]
  rw [if_neg hnle]

/-- C3: on the example list `[infra-ai-hub/a/x.tf, infra-ai-hub/a/y.tf,
initial-setup/infra/b/z.tf]` — in any input order — `get_tflint_workdirs`
returns exactly the two distinct root-resolved parent directories
`[root/infra-ai-hub/a, root/initial-setup/infra/b]`, deduplicated and in
sorted order; and in general its result on parsed paths is independent of
the order of the input list. -/
theorem workdirs_example_and_order_free (root : PyPath) :
    (∀ l : List PyPath,
        l.Perm [PyPath.parse "infra-ai-hub/a/x.tf", PyPath.parse "infra-ai-hub/a/y.tf",
          PyPath.parse "initial-setup/infra/b/z.tf"] →
        get_tflint_workdirs root l
          = [root.join (PyPath.parse "infra-ai-hub/a"),
             root.join (PyPath.parse "initial-setup/infra/b")])
      ∧ (WfPath root → ∀ l₁ l₂ : List String, l₁.Perm l₂ →
          get_tflint_workdirs root (l₁.map PyPath.parse)
            = get_tflint_workdirs root (l₂.map PyPath.parse)) := by
  constructor
  · intro l hl
    have hmap : (l.map (fun fp => (root.join fp).parent)).Perm
        [root.join (PyPath.parse "infra-ai-hub/a"), root.join (PyPath.parse "infra-ai-hub/a"),
          root.join (PyPath.parse "initial-setup/infra/b")] := by
      have h2 := hl.map (fun fp => (root.join fp).parent)
      simpa [workdir_eq_a1, workdir_eq_a2, workdir_eq_b] using h2
    have hded : (l.map (fun fp => (root.join fp).parent)).dedup.Perm
        [root.join (PyPath.parse "infra-ai-hub/a"),
         root.join (PyPath.parse "initial-setup/infra/b")] := by
      have h2 := hmap.dedup
      rw [List.dedup_cons_of_mem (List.mem_cons_self _ _)] at h2
      rw [List.dedup_cons_of_not_mem (by simp [workdir_ab_ne root])] at h2
      rw [List.dedup_cons_of_not_mem (List.not_mem_nil _)] at h2
      rw [List.dedup_nil] at h2
      exact h2
    rcases perm_pair_cases hded with hcase | hcase
    · show List.insertionSort PathLe _ = _
      rw [hcase]
      exact insertionSort_pair1 (workdir_ab_le root)
    · show List.insertionSort PathLe _ = _
      rw [hcase]
      exact insertionSort_pair2 (workdir_ba_nle root)
  · intro hroot l₁ l₂ hperm
    have hwf₁ : ∀ d ∈ get_tflint_workdirs root (l₁.map PyPath.parse), WfPath d :=
      workdirs_wf hroot _ (fun f hf => by
        obtain ⟨s, _, rfl⟩ := List.mem_map.mp hf
        exact parse_wf s)
    have hp : (get_tflint_workdirs root (l₁.map PyPath.parse)).Perm
        (get_tflint_workdirs root (l₂.map PyPath.parse)) :=
      (List.perm_insertionSort _ _).trans
        ((((hperm.map PyPath.parse).map _).dedup).trans (List.perm_insertionSort _ _).symm)
    exact sorted_unique _ _
      (fun a ha b hb => pathLe_antisymm_wf (hwf₁ a ha) (hwf₁ b hb))
      hp (List.sorted_insertionSort _ _) (List.sorted_insertionSort _ _)

/-- C3 witness: the example list given in a permuted order produces the two
sorted work directories. -/
theorem workdirs_example_witness :
    get_tflint_workdirs (PyPath.parse "/repo")
        [PyPath.parse "initial-setup/infra/b/z.tf", PyPath.parse "infra-ai-hub/a/x.tf",
          PyPath.parse "infra-ai-hub/a/y.tf"]
      = [(PyPath.parse "/repo").join (PyPath.parse "infra-ai-hub/a"),
         (PyPath.parse "/repo").join (PyPath.parse "initial-setup/infra/b")] :=
  (workdirs_example_and_order_free (PyPath.parse "/repo")).1 _ (by decide)

/-- C9: a qualifying path occurring `k` times among the arguments produces
exactly `k` format-check invocations (order and multiplicity of the
qualifying list are preserved), while the sorted work-directory list
contains its parent directory exactly once. -/
theorem main_multiplicity (root : PyPath) (fs : PyPath → Bool) (args : List String) (s : String)
    (hroot : WfPath root)
    (hq : is_under_terraform_roots fs (PyPath.parse s) = true) :
    ((qualifyingFiles fs args).map (fmtInvocation root)).count
        (fmtInvocation root (PyPath.parse s))
      = args.countP (fun t => PyPath.parse t == PyPath.parse s)
    ∧ (PyPath.parse s ∈ qualifyingFiles fs args →
        (get_tflint_workdirs root (qualifyingFiles fs args)).count
          ((root.join (PyPath.parse s)).parent) = 1) := by
  constructor
  · rw [List.count_eq_countP, List.countP_map]
    have hcongr : ∀ x ∈ qualifyingFiles fs args,
        ((fun y => y == fmtInvocation root (PyPath.parse s)) ∘ fmtInvocation root) x = true
          ↔ (fun y => y == PyPath.parse s) x = true := by
      intro x hx
      simp only [Function.comp_apply, beq_iff_eq]
      constructor
      · intro he
        have hxq : is_under_terraform_roots fs x = true := (List.mem_filter.mp hx).2
        obtain ⟨t, _, rfl⟩ := List.mem_map.mp (List.mem_of_mem_filter hx)
        have hcmd := congrArg Invocation.command he
        simp only [fmtInvocation, List.cons.injEq, and_true, true_and] at hcmd
        have hdata : (root.join (PyPath.parse t)).asPosixData
            = (root.join (PyPath.parse s)).asPosixData := congrArg String.data hcmd
        exact join_posixData_inj hroot (parse_wf t) (parse_wf s)
          (qual_not_absolute hxq) (qual_not_absolute hq)
          (qual_parts_ne_nil hxq) (qual_parts_ne_nil hq) hdata
      · intro he
        rw [he]
    rw [List.countP_congr hcongr, ← List.count_eq_countP]
    unfold qualifyingFiles
    rw [List.count_filter hq, List.count_eq_countP, List.countP_map]
    rfl
  · intro hmem
    have hperm := List.perm_insertionSort PathLe
      (((qualifyingFiles fs args).map (fun fp => (root.join fp).parent)).dedup)
    show (List.insertionSort PathLe _).count _ = 1
    rw [hperm.count_eq]
    exact List.count_eq_one_of_mem (List.nodup_dedup _)
      (List.mem_dedup.mpr (List.mem_map_of_mem _ hmem))

/-- C9 witness: the same qualifying file passed twice yields two format
invocations but a single work directory occurrence. -/
theorem main_multiplicity_witness :
    ((qualifyingFiles (fun _ => true) ["infra-ai-hub/a/x.tf", "infra-ai-hub/a/x.tf"]).map
        (fmtInvocation (PyPath.parse "/repo"))).count
        (fmtInvocation (PyPath.parse "/repo") (PyPath.parse "infra-ai-hub/a/x.tf")) = 2
      ∧ (get_tflint_workdirs (PyPath.parse "/repo")
          (qualifyingFiles (fun _ => true) ["infra-ai-hub/a/x.tf", "infra-ai-hub/a/x.tf"])).count
          ((PyPath.parse "/repo").join (PyPath.parse "infra-ai-hub/a/x.tf")).parent = 1 := by
  have h := main_multiplicity (PyPath.parse "/repo") (fun _ => true)
    ["infra-ai-hub/a/x.tf", "infra-ai-hub/a/x.tf"] "infra-ai-hub/a/x.tf" (by decide) (by decide)
  exact ⟨by rw [h.1]; decide, h.2 (by decide)⟩

/-- C10: every working directory of a lint invocation is the repository
root joined with the parent of a qualifying (hence relative) path, so it
shares the root's absoluteness and has the root's components as a prefix
of its own — it lies inside the repository root. -/
theorem lint_cwd_inside_root (root : PyPath) (fs : PyPath → Bool) (args : List String)
    (inv : Invocation)
    (h : inv ∈ tflintInvocations (get_tflint_workdirs root (qualifyingFiles fs args))) :
    ∃ p ∈ qualifyingFiles fs args, p.absolute = false
      ∧ inv.cwd = (root.join p).parent
      ∧ inv.cwd.absolute = root.absolute
      ∧ root.parts <+: inv.cwd.parts := by
  have hmem := tflint_cwd_mem _ inv h
  have hd2 : inv.cwd ∈ ((qualifyingFiles fs args).map (fun fp => (root.join fp).parent)).dedup :=
    ((List.perm_insertionSort PathLe _).mem_iff).mp hmem
  obtain ⟨p, hp, hcwd⟩ := List.mem_map.mp (List.mem_dedup.mp hd2)
  have hqual : is_under_terraform_roots fs p = true := (List.mem_filter.mp hp).2
  have habs : p.absolute = false := qual_not_absolute hqual
  have hne : p.parts ≠ [] := qual_parts_ne_nil hqual
  refine ⟨p, hp, habs, hcwd.symm, ?_, ?_⟩
  · rw [← hcwd, parent_parts root p habs hne]
  · rw [← hcwd, parent_parts root p habs hne]
    exact ⟨p.parts.dropLast, rfl⟩

/-- C10 witness: the concrete `tflint --init` invocation of a one-file run
has its working directory inside the repository root. -/
theorem lint_cwd_inside_root_witness :
    ∃ p ∈ qualifyingFiles (fun _ => true) ["infra-ai-hub/a/x.tf"], p.absolute = false
      ∧ (⟨["tflint", "--init"], PyPath.parse "/repo/infra-ai-hub/a"⟩ : Invocation).cwd
          = ((PyPath.parse "/repo").join p).parent
      ∧ (⟨["tflint", "--init"], PyPath.parse "/repo/infra-ai-hub/a"⟩ : Invocation).cwd.absolute
          = (PyPath.parse "/repo").absolute
      ∧ (PyPath.parse "/repo").parts
          <+: (⟨["tflint", "--init"], PyPath.parse "/repo/infra-ai-hub/a"⟩ : Invocation).cwd.parts :=
  lint_cwd_inside_root (PyPath.parse "/repo") (fun _ => true) ["infra-ai-hub/a/x.tf"]
    ⟨["tflint", "--init"], PyPath.parse "/repo/infra-ai-hub/a"⟩ (by decide)

example : (PyPath.parse "infra-ai-hub/a/x.tf").suffixData = ".tf".data := by decide
example : (PyPath.parse "infra-ai-hub/a/.tf").suffixData = [] := by decide
example : (PyPath.parse "/repo/x.tf").absolute = true := by decide
example : is_under_terraform_roots (fun _ => true) (PyPath.parse "infra-ai-hub/a/x.tf") = true := by
  decide
example : is_under_terraform_roots (fun _ => true) (PyPath.parse "/repo/infra-ai-hub/a/x.tf")
    = false := by decide
example : is_under_terraform_roots (fun _ => true) (PyPath.parse "initial-setup/infra/b/z.tf")
    = true := by decide
example : is_under_terraform_roots (fun _ => false) (PyPath.parse "infra-ai-hub/a/x.tf")
    = false := by decide
example : is_under_terraform_roots (fun _ => true) (PyPath.parse "infra-ai-hub/a/x.txt")
    = false := by decide
example : PyPath.str (PyPath.parse "/repo/a//b/./c") = "/repo/a/b/c" := by decide
example :
    get_tflint_workdirs (PyPath.parse "/repo")
      [PyPath.parse "infra-ai-hub/a/x.tf", PyPath.parse "infra-ai-hub/a/y.tf",
        PyPath.parse "initial-setup/infra/b/z.tf"]
    = [PyPath.parse "/repo/infra-ai-hub/a", PyPath.parse "/repo/initial-setup/infra/b"] := by
  decide
example :
    get_tflint_workdirs (PyPath.parse "/repo")
      [PyPath.parse "initial-setup/infra/b/z.tf", PyPath.parse "infra-ai-hub/a/y.tf",
        PyPath.parse "infra-ai-hub/a/x.tf"]
    = [PyPath.parse "/repo/infra-ai-hub/a", PyPath.parse "/repo/initial-setup/infra/b"] := by
  decide
example :
    pyMain (PyPath.parse "/repo") (fun _ => true) (fun _ => .ran 0) ["infra-ai-hub/a/x.tf"]
    = (0, [⟨["terraform", "fmt", "-check", "-diff", "/repo/infra-ai-hub/a/x.tf"],
            PyPath.parse "/repo"⟩,
          ⟨["tflint", "--init"], PyPath.parse "/repo/infra-ai-hub/a"⟩,
          ⟨["tflint", "--minimum-failure-severity=error"], PyPath.parse "/repo/infra-ai-hub/a"⟩]) := by
  decide
example :
    pyMain (PyPath.parse "/repo") (fun _ => true) (fun _ => .ran 1) ["infra-ai-hub/a/x.tf"]
    = (1, [⟨["terraform", "fmt", "-check", "-diff", "/repo/infra-ai-hub/a/x.tf"],
            PyPath.parse "/repo"⟩]) := by
  decide
example :
    pyMain (PyPath.parse "/repo") (fun _ => false) (fun _ => .ran 0) ["infra-ai-hub/a/x.tf"]
    = (0, []) := by decide
example :
    qualifySpec (PyPath.parse "/repo") (fun _ => true)
      (PyPath.parse "/repo/infra-ai-hub/a/x.tf") = true := by decide
